import Mathlib

/-!
Shallow embedding of the venue identity reconciliation engine from
src/scripts/python/sync_venue_master_mapping.py, together with proofs of the
behavioural properties stated in the specification.

Strings are modelled by Lean strings; Python str.strip / str.lower are
modelled character-wise over the underlying character list (ASCII semantics,
which covers all data handled by this repository).  CSV rows read through
csv.DictReader are modelled as association lists from column name to cell
value, so that a missing column makes the lookup return none, exactly like
dict.get.  Python sets of Triples are modelled as duplicate-free lists; the
reconciler is proved insensitive to the order of that list, which is the
formal counterpart of it consuming a set.
-/

/-- Whitespace predicate used by the model of Python str.strip. -/
def wsp (c : Char) : Bool := c.isWhitespace

/-- Strip leading and trailing whitespace from a character list. -/
def stripList (l : List Char) : List Char :=
  ((l.dropWhile wsp).reverse.dropWhile wsp).reverse

/-- Model of Python str.strip. -/
def pyStrip (s : String) : String := String.mk (stripList s.data)

/-- Model of Python str.lower (character-wise lowercasing). -/
def pyLower (s : String) : String := String.mk (s.data.map Char.toLower)

/-- Model of the source function _norm on a present string value:
normalisation is trim followed by lowercasing. -/
def _norm (s : String) : String := pyLower (pyStrip s)

/-- Model of the source function _clean on a present string value. -/
def _clean (s : String) : String := pyStrip s

/-- Model of the source expression (value or "").strip() applied to an
optional CSV cell (dict.get returns None for a missing column). -/
def cleanOpt (v : Option String) : String := _clean (v.getD "")

/-- The Triple dataclass from the source: a curated venue record. -/
structure Triple where
  venue : String
  city : String
  country : String
deriving DecidableEq

/-- A normalised (venue, city, country) key. -/
abbrev Key := String × String × String

/-- The key property of the Triple dataclass. -/
def Triple.key (t : Triple) : Key := (_norm t.venue, _norm t.city, _norm t.country)

/-- A row of the master registry, with the four MASTER_FIELDS columns. -/
structure MasterRow where
  venue_id : String
  canonical_venue : String
  canonical_city : String
  canonical_country : String
deriving DecidableEq

/-- The SyncResult dataclass from the source. -/
structure SyncResult where
  updated_rows : Nat
  appended_rows : Nat
  ambiguous_rows : Nat
deriving DecidableEq

/-- A CSV row as produced by csv.DictReader: column name to cell value. -/
abbrev SrcRow := List (String × String)

/-- Model of _approved_alias_row: the normalised review status starts with
the string approved. -/
def _approved_alias_row (status : String) : Bool :=
  decide ((_norm status).data.take 8 = "approved".data)

/-- Insertion of a Triple into the curated set: Python set.add keeps the
set duplicate-free under structural equality of the frozen dataclass. -/
def addTriple (s : List Triple) (t : Triple) : List Triple :=
  if t ∈ s then s else s ++ [t]

/-- One iteration of the primary-mapping loop of _load_curated_triples. -/
def primaryStep (s : List Triple) (row : SrcRow) : List Triple :=
  let venue := cleanOpt (row.lookup "venue")
  let city := cleanOpt (row.lookup "city")
  let country := cleanOpt (row.lookup "country")
  if venue ≠ "" ∧ city ≠ "" ∧ country ≠ "" then
    addTriple s ⟨venue, city, country⟩
  else s

/-- One iteration of the alias-mapping loop of _load_curated_triples. -/
def aliasStep (s : List Triple) (row : SrcRow) : List Triple :=
  if _approved_alias_row ((row.lookup "review_status").getD "") then
    let venue := cleanOpt (row.lookup "canonical_venue")
    let city := cleanOpt (row.lookup "canonical_city")
    let country := cleanOpt (row.lookup "canonical_country")
    if venue ≠ "" ∧ city ≠ "" ∧ country ≠ "" then
      addTriple s ⟨venue, city, country⟩
    else s
  else s

/-- Model of _load_curated_triples: fold the primary-mapping rows, then the
alias-mapping rows, into one duplicate-free curated set. -/
def _load_curated_triples (country_rows alias_rows : List SrcRow) : List Triple :=
  alias_rows.foldl aliasStep (country_rows.foldl primaryStep [])

/-- Decimal digit character (only applied to values below ten). -/
def digitChar (n : Nat) : Char :=
  match n with
  | 0 => '0' | 1 => '1' | 2 => '2' | 3 => '3' | 4 => '4'
  | 5 => '5' | 6 => '6' | 7 => '7' | 8 => '8' | _ => '9'

/-- Decimal digit list with an explicit structural recursion bound; the
bound is sufficient whenever the number does not exceed it. -/
def natDigitsAux : Nat → Nat → List Char
  | 0, n => [digitChar n]
  | fuel + 1, n =>
      if n < 10 then [digitChar n]
      else natDigitsAux fuel (n / 10) ++ [digitChar (n % 10)]

/-- Decimal digit list of a natural number, most significant digit first. -/
def natDigits (n : Nat) : List Char := natDigitsAux n n

/-- Numeric value of a decimal digit list, as computed by Python int. -/
def digitsToNatL (l : List Char) : Nat :=
  l.foldl (fun a c => a * 10 + (c.toNat - 48)) 0

/-- Model of the Python format expression producing ven_ followed by the
number zero-padded to at least six digits. -/
def venueIdString (n : Nat) : String :=
  String.mk ("ven_".data ++ List.replicate (6 - (natDigits n).length) '0' ++ natDigits n)

/-- Model of matching the anchored regular expression ven_ followed by one
or more digits, returning the numeric suffix. -/
def parseVenId (s : String) : Option Nat :=
  let l := s.data
  if l.take 4 = "ven_".data ∧ l.drop 4 ≠ [] ∧ (l.drop 4).all Char.isDigit
  then some (digitsToNatL (l.drop 4)) else none

/-- Model of _extract_max_venue_id: fold the maximum parsed numeric suffix
over the rows, starting from zero. -/
def _extract_max_venue_id (rows : List MasterRow) : Nat :=
  rows.foldl
    (fun m r =>
      match parseVenId (_clean r.venue_id) with
      | some n => Nat.max m n
      | none => m)
    0

/-- The list of normalised keys of the curated set.  The source builds the
dictionary curated_by_key keyed by Triple.key; sync_master only ever tests
membership of a key in that dictionary, which is membership in this list. -/
def curatedKeys (curated : List Triple) : List Key := curated.map Triple.key

/-- The candidate list for a normalised venue name.  The source builds the
dictionary produced by _build_venue_to_triples and looks a venue key up with
an empty default; the resulting group is exactly the sublist of curated
triples whose normalised venue equals the key, in curated order. -/
def candidatesFor (curated : List Triple) (vk : String) : List Triple :=
  curated.filter (fun t => _norm t.venue == vk)

/-- The four field values cleaned at the top of the row loop of sync_master. -/
def cleanRow (r : MasterRow) : MasterRow :=
  ⟨_clean r.venue_id, _clean r.canonical_venue,
   _clean r.canonical_city, _clean r.canonical_country⟩

/-- The current_key computed in the row loop of sync_master. -/
def currentKeyOf (r : MasterRow) : Key :=
  (_norm (_clean r.canonical_venue), _norm (_clean r.canonical_city),
   _norm (_clean r.canonical_country))

/-- The normalised key of a row read off its raw fields. -/
def rowKey (r : MasterRow) : Key :=
  (_norm r.canonical_venue, _norm r.canonical_city, _norm r.canonical_country)

/-- One iteration of the row loop of sync_master.  Returns the row appended
to updated_master, the key added to master_keys_seen, whether updated_rows
is incremented, and whether ambiguous_rows is incremented. -/
def rowStep (curated : List Triple) (row : MasterRow) : MasterRow × Key × Bool × Bool :=
  if currentKeyOf row ∈ curatedKeys curated then
    (cleanRow row, currentKeyOf row, false, false)
  else
    match candidatesFor curated (_norm (_clean row.canonical_venue)) with
    | [target] =>
        (⟨_clean row.venue_id, target.venue, target.city, target.country⟩, target.key,
         decide ((_norm (_clean row.canonical_city), _norm (_clean row.canonical_country)) ≠
                 (_norm target.city, _norm target.country)),
         false)
    | cs => (cleanRow row, currentKeyOf row, false, decide (1 < cs.length))

/-- The row appended to updated_master for a given input row. -/
def syncRow (curated : List Triple) (row : MasterRow) : MasterRow :=
  (rowStep curated row).1

/-- The key marked seen for a given input row. -/
def seenKeyOf (curated : List Triple) (row : MasterRow) : Key :=
  (rowStep curated row).2.1

/-- Whether a given input row increments updated_rows. -/
def updFlag (curated : List Triple) (row : MasterRow) : Bool :=
  (rowStep curated row).2.2.1

/-- Whether a given input row increments ambiguous_rows. -/
def ambFlag (curated : List Triple) (row : MasterRow) : Bool :=
  (rowStep curated row).2.2.2

/-- The row loop of sync_master with its four accumulators. -/
def syncLoopAux (curated : List Triple) (rows : List MasterRow)
    (acc : List MasterRow) (seen : List Key) (upd amb : Nat) :
    List MasterRow × List Key × Nat × Nat :=
  match rows with
  | [] => (acc, seen, upd, amb)
  | row :: rest =>
      let s := rowStep curated row
      syncLoopAux curated rest (acc ++ [s.1]) (seen ++ [s.2.1])
        (upd + (if s.2.2.1 then 1 else 0)) (amb + (if s.2.2.2 then 1 else 0))

/-- Lexicographic comparison of character lists by code point, the
semantics of the Python string less-than used by the sort key. -/
def charListLt : List Char → List Char → Bool
  | _, [] => false
  | [], _ :: _ => true
  | c1 :: t1, c2 :: t2 =>
      if c1.toNat < c2.toNat then true
      else if c2.toNat < c1.toNat then false
      else charListLt t1 t2

/-- The comparison used by the Python sort key: lexicographic comparison of
the surface tuple (venue, city, country), each component compared as a
Python string. -/
def tripleLe (a b : Triple) : Prop :=
  charListLt a.venue.data b.venue.data = true ∨ a.venue = b.venue ∧
    (charListLt a.city.data b.city.data = true ∨ a.city = b.city ∧
      (charListLt a.country.data b.country.data = true ∨ a.country = b.country))

instance : DecidableRel tripleLe := fun a b =>
  inferInstanceAs (Decidable (_ ∨ _))

instance : IsTrans Triple tripleLe := by
  have hch : ∀ (c d : Char) (t u : List Char),
      charListLt (c :: t) (d :: u) = true ↔
        (c.toNat < d.toNat ∨ (c.toNat = d.toNat ∧ charListLt t u = true)) := by
    intro c d t u
    show (if c.toNat < d.toNat then true
      else if d.toNat < c.toNat then false else charListLt t u) = true ↔ _
    by_cases hx : c.toNat < d.toNat
    · rw [if_pos hx]
      constructor
      · intro _
        exact Or.inl hx
      · intro _
        rfl
    · by_cases hy : d.toNat < c.toNat
      · rw [if_neg hx, if_pos hy]
        constructor
        · intro hfalse
          simp at hfalse
        · rintro (h | ⟨h, _⟩) <;> (exfalso; omega)
      · rw [if_neg hx, if_neg hy]
        constructor
        · intro h
          exact Or.inr ⟨by omega, h⟩
        · rintro (h | ⟨_, h⟩)
          · exfalso
            omega
          · exact h
  have L5 : ∀ l1 l2 l3 : List Char, charListLt l1 l2 = true → charListLt l2 l3 = true →
      charListLt l1 l3 = true := by
    intro l1
    induction l1 with
    | nil =>
        intro l2 l3 h1 h2
        cases l2 with
        | nil => exact absurd h1 (by simp [charListLt])
        | cons c2 t2 =>
            cases l3 with
            | nil => exact absurd h2 (by simp [charListLt])
            | cons c3 t3 => simp [charListLt]
    | cons c1 t1 ih =>
        intro l2 l3 h1 h2
        cases l2 with
        | nil => exact absurd h1 (by simp [charListLt])
        | cons c2 t2 =>
            cases l3 with
            | nil => exact absurd h2 (by simp [charListLt])
            | cons c3 t3 =>
                rw [hch] at h1 h2 ⊢
                rcases h1 with h1 | ⟨he1, h1⟩
                · rcases h2 with h2 | ⟨he2, h2⟩
                  · exact Or.inl (by omega)
                  · exact Or.inl (by omega)
                · rcases h2 with h2 | ⟨he2, h2⟩
                  · exact Or.inl (by omega)
                  · exact Or.inr ⟨by omega, ih t2 t3 h1 h2⟩
  refine ⟨fun a b c h1 h2 => ?_⟩
  unfold tripleLe at h1 h2 ⊢
  rcases h1 with h1 | ⟨hv1, h1⟩
  · rcases h2 with h2 | ⟨hv2, h2⟩
    · exact Or.inl (L5 _ _ _ h1 h2)
    · rw [← hv2]
      exact Or.inl h1
  · rcases h2 with h2 | ⟨hv2, h2⟩
    · rw [hv1]
      exact Or.inl h2
    · refine Or.inr ⟨hv1.trans hv2, ?_⟩
      rcases h1 with h1 | ⟨hc1, h1⟩
      · rcases h2 with h2 | ⟨hc2, h2⟩
        · exact Or.inl (L5 _ _ _ h1 h2)
        · rw [← hc2]
          exact Or.inl h1
      · rcases h2 with h2 | ⟨hc2, h2⟩
        · rw [hc1]
          exact Or.inl h2
        · refine Or.inr ⟨hc1.trans hc2, ?_⟩
          rcases h1 with h1 | h1
          · rcases h2 with h2 | h2
            · exact Or.inl (L5 _ _ _ h1 h2)
            · rw [← h2]
              exact Or.inl h1
          · rcases h2 with h2 | h2
            · rw [h1]
              exact Or.inl h2
            · exact Or.inr (h1.trans h2)

instance : IsTotal Triple tripleLe := by
  have hch : ∀ (c d : Char) (t u : List Char),
      charListLt (c :: t) (d :: u) = true ↔
        (c.toNat < d.toNat ∨ (c.toNat = d.toNat ∧ charListLt t u = true)) := by
    intro c d t u
    show (if c.toNat < d.toNat then true
      else if d.toNat < c.toNat then false else charListLt t u) = true ↔ _
    by_cases hx : c.toNat < d.toNat
    · rw [if_pos hx]
      constructor
      · intro _
        exact Or.inl hx
      · intro _
        rfl
    · by_cases hy : d.toNat < c.toNat
      · rw [if_neg hx, if_pos hy]
        constructor
        · intro hfalse
          simp at hfalse
        · rintro (h | ⟨h, _⟩) <;> (exfalso; omega)
      · rw [if_neg hx, if_neg hy]
        constructor
        · intro h
          exact Or.inr ⟨by omega, h⟩
        · rintro (h | ⟨_, h⟩)
          · exfalso
            omega
          · exact h
  have T : ∀ l1 l2 : List Char, charListLt l1 l2 = true ∨ l1 = l2 ∨ charListLt l2 l1 = true := by
    intro l1
    induction l1 with
    | nil =>
        intro l2
        cases l2 with
        | nil => exact Or.inr (Or.inl rfl)
        | cons c2 t2 => exact Or.inl (by simp [charListLt])
    | cons c1 t1 ih =>
        intro l2
        cases l2 with
        | nil => exact Or.inr (Or.inr (by simp [charListLt]))
        | cons c2 t2 =>
            by_cases h12 : c1.toNat < c2.toNat
            · exact Or.inl ((hch _ _ _ _).2 (Or.inl h12))
            · by_cases h21 : c2.toNat < c1.toNat
              · exact Or.inr (Or.inr ((hch _ _ _ _).2 (Or.inl h21)))
              · have hceq : c1.toNat = c2.toNat := by omega
                have hc : c1 = c2 :=
                  Char.eq_of_val_eq (UInt32.toBitVec_injective
                    (BitVec.eq_of_toNat_eq hceq))
                subst hc
                rcases ih t2 with h | h | h
                · exact Or.inl ((hch _ _ _ _).2 (Or.inr ⟨rfl, h⟩))
                · exact Or.inr (Or.inl (by rw [h]))
                · exact Or.inr (Or.inr ((hch _ _ _ _).2 (Or.inr ⟨rfl, h⟩)))
  have hstr : ∀ x y : String, charListLt x.data y.data = true ∨ x = y ∨
      charListLt y.data x.data = true := by
    intro x y
    rcases T x.data y.data with h | h | h
    · exact Or.inl h
    · refine Or.inr (Or.inl ?_)
      cases x
      cases y
      exact congrArg String.mk h
    · exact Or.inr (Or.inr h)
  refine ⟨fun a b => ?_⟩
  unfold tripleLe
  rcases hstr a.venue b.venue with h | h | h
  · exact Or.inl (Or.inl h)
  · rcases hstr a.city b.city with h2 | h2 | h2
    · exact Or.inl (Or.inr ⟨h, Or.inl h2⟩)
    · rcases hstr a.country b.country with h3 | h3 | h3
      · exact Or.inl (Or.inr ⟨h, Or.inr ⟨h2, Or.inl h3⟩⟩)
      · exact Or.inl (Or.inr ⟨h, Or.inr ⟨h2, Or.inr h3⟩⟩)
      · exact Or.inr (Or.inr ⟨h.symm, Or.inr ⟨h2.symm, Or.inl h3⟩⟩)
    · exact Or.inr (Or.inr ⟨h.symm, Or.inl h2⟩)
  · exact Or.inr (Or.inl h)

instance : IsAntisymm Triple tripleLe := by
  have hch : ∀ (c d : Char) (t u : List Char),
      charListLt (c :: t) (d :: u) = true ↔
        (c.toNat < d.toNat ∨ (c.toNat = d.toNat ∧ charListLt t u = true)) := by
    intro c d t u
    show (if c.toNat < d.toNat then true
      else if d.toNat < c.toNat then false else charListLt t u) = true ↔ _
    by_cases hx : c.toNat < d.toNat
    · rw [if_pos hx]
      constructor
      · intro _
        exact Or.inl hx
      · intro _
        rfl
    · by_cases hy : d.toNat < c.toNat
      · rw [if_neg hx, if_pos hy]
        constructor
        · intro hfalse
          simp at hfalse
        · rintro (h | ⟨h, _⟩) <;> (exfalso; omega)
      · rw [if_neg hx, if_neg hy]
        constructor
        · intro h
          exact Or.inr ⟨by omega, h⟩
        · rintro (h | ⟨_, h⟩)
          · exfalso
            omega
          · exact h
  have L2 : ∀ l1 l2 : List Char, charListLt l1 l2 = true → charListLt l2 l1 = true → False := by
    intro l1
    induction l1 with
    | nil =>
        intro l2 h1 h2
        cases l2 with
        | nil => simp [charListLt] at h1
        | cons c2 t2 => simp [charListLt] at h2
    | cons c1 t1 ih =>
        intro l2 h1 h2
        cases l2 with
        | nil => simp [charListLt] at h1
        | cons c2 t2 =>
            rw [hch] at h1 h2
            rcases h1 with h1 | ⟨he1, h1⟩
            · rcases h2 with h2 | ⟨he2, h2⟩
              · omega
              · omega
            · rcases h2 with h2 | ⟨he2, h2⟩
              · omega
              · exact ih t2 h1 h2
  have hstr : ∀ x y : String, charListLt x.data y.data = true →
      charListLt y.data x.data = true → False := fun x y => L2 x.data y.data
  refine ⟨fun a b h1 h2 => ?_⟩
  unfold tripleLe at h1 h2
  have hv : a.venue = b.venue := by
    rcases h1 with h1 | ⟨hv1, _⟩
    · rcases h2 with h2 | ⟨hv2, _⟩
      · exact (hstr _ _ h1 h2).elim
      · rw [hv2] at h1
        exact (hstr _ _ h1 h1).elim
    · exact hv1
  rw [hv] at h1
  rcases h1 with h1 | ⟨_, h1⟩
  · exact (hstr _ _ h1 h1).elim
  · rcases h2 with h2 | ⟨_, h2⟩
    · rw [hv] at h2
      exact (hstr _ _ h2 h2).elim
    · have hc : a.city = b.city := by
        rcases h1 with h1 | ⟨hc1, _⟩
        · rcases h2 with h2 | ⟨hc2, _⟩
          · exact (hstr _ _ h1 h2).elim
          · rw [hc2] at h1
            exact (hstr _ _ h1 h1).elim
        · exact hc1
      rw [hc] at h1
      rcases h1 with h1 | ⟨_, h1⟩
      · exact (hstr _ _ h1 h1).elim
      · rcases h2 with h2 | ⟨_, h2⟩
        · rw [hc] at h2
          exact (hstr _ _ h2 h2).elim
        · have hk : a.country = b.country := by
            rcases h1 with h1 | hk1
            · rcases h2 with h2 | hk2
              · exact (hstr _ _ h1 h2).elim
              · rw [hk2] at h1
                exact (hstr _ _ h1 h1).elim
            · exact hk1
          cases a
          cases b
          simp_all

/-- The rows appended by the final loop of sync_master, consuming successive
identifiers above the given high-water mark. -/
def appendRows (max_id : Nat) : List Triple → List MasterRow
  | [] => []
  | t :: ts =>
      ⟨venueIdString (max_id + 1), t.venue, t.city, t.country⟩ ::
      appendRows (max_id + 1) ts

/-- Model of sync_master: run the row loop, compute the high-water mark of
the updated rows, sort the curated set by surface tuple, filter out keys
already seen, and append the remaining triples with fresh identifiers. -/
def sync_master (master_rows : List MasterRow) (curated : List Triple) :
    List MasterRow × SyncResult :=
  let res := syncLoopAux curated master_rows [] [] 0 0
  let updated_master := res.1
  let seen := res.2.1
  let max_id := _extract_max_venue_id updated_master
  let missing_curated :=
    (List.insertionSort tripleLe curated).filter (fun t => decide (t.key ∉ seen))
  (updated_master ++ appendRows max_id missing_curated,
   ⟨res.2.2.1, missing_curated.length, res.2.2.2⟩)

/-- The seen-key list produced by the row loop, in closed form. -/
def seenKeys (curated : List Triple) (rows : List MasterRow) : List Key :=
  rows.map (seenKeyOf curated)

/-- The unseen curated triples in sorted order, in closed form. -/
def missingTriples (master_rows : List MasterRow) (curated : List Triple) : List Triple :=
  (List.insertionSort tripleLe curated).filter
    (fun t => decide (t.key ∉ seenKeys curated master_rows))

/-- The condition under which a primary-mapping row contributes a Triple
to the curated set. -/
def primaryMakes (row : SrcRow) (t : Triple) : Prop :=
  cleanOpt (row.lookup "venue") ≠ "" ∧ cleanOpt (row.lookup "city") ≠ "" ∧
  cleanOpt (row.lookup "country") ≠ "" ∧
  t = ⟨cleanOpt (row.lookup "venue"), cleanOpt (row.lookup "city"),
       cleanOpt (row.lookup "country")⟩

/-- The condition under which an alias-mapping row contributes a Triple
to the curated set. -/
def aliasMakes (row : SrcRow) (t : Triple) : Prop :=
  _approved_alias_row ((row.lookup "review_status").getD "") = true ∧
  cleanOpt (row.lookup "canonical_venue") ≠ "" ∧
  cleanOpt (row.lookup "canonical_city") ≠ "" ∧
  cleanOpt (row.lookup "canonical_country") ≠ "" ∧
  t = ⟨cleanOpt (row.lookup "canonical_venue"), cleanOpt (row.lookup "canonical_city"),
       cleanOpt (row.lookup "canonical_country")⟩

/-! ### Helper lemmas about stripping and normalisation -/

theorem dropWhile_idem (p : α → Bool) (l : List α) :
    (l.dropWhile p).dropWhile p = l.dropWhile p := by
  induction l with
  | nil => rfl
  | cons a t ih =>
      by_cases h : p a = true
      · rw [List.dropWhile_cons_of_pos h]; exact ih
      · rw [List.dropWhile_cons_of_neg h, List.dropWhile_cons_of_neg h]

theorem head_false_of_dropWhile_eq (p : α → Bool) (a : α) (t : List α)
    (h : (a :: t).dropWhile p = a :: t) : p a = false := by
  by_contra hb
  have hp : p a = true := by revert hb; cases p a <;> simp
  rw [List.dropWhile_cons_of_pos hp] at h
  have hlen := (@List.dropWhile_sublist _ t p).length_le
  rw [h] at hlen
  simp at hlen

theorem dropWhile_stripTrail (p : α → Bool) (l : List α)
    (h : l.dropWhile p = l) :
    ((l.reverse.dropWhile p).reverse).dropWhile p = (l.reverse.dropWhile p).reverse := by
  have hpre : (l.reverse.dropWhile p).reverse <+: l := by
    have hx : l.reverse.dropWhile p <:+ l.reverse := List.dropWhile_suffix p
    have := (@List.reverse_prefix _ (l.reverse.dropWhile p) l.reverse).2 hx
    rwa [List.reverse_reverse] at this
  cases l with
  | nil => simp
  | cons a t =>
      have ha : p a = false := head_false_of_dropWhile_eq p a t h
      cases hm : ((a :: t).reverse.dropWhile p).reverse with
      | nil => rfl
      | cons b s =>
          rw [hm] at hpre
          obtain ⟨r, hr⟩ := hpre
          rw [List.cons_append] at hr
          injection hr with h1 h2
          subst h1
          exact List.dropWhile_cons_of_neg (by simp [ha])

theorem stripList_idem (l : List Char) : stripList (stripList l) = stripList l := by
  unfold stripList
  have h1 : (l.dropWhile wsp).dropWhile wsp = l.dropWhile wsp := dropWhile_idem wsp l
  have h2 := dropWhile_stripTrail wsp (l.dropWhile wsp) h1
  rw [h2, List.reverse_reverse, dropWhile_idem]

theorem dropWhile_eq_self_of_all (p : α → Bool) (l : List α)
    (h : ∀ c ∈ l, p c = false) : l.dropWhile p = l := by
  cases l with
  | nil => rfl
  | cons a t =>
      exact List.dropWhile_cons_of_neg (by simp [h a (List.mem_cons_self a t)])

theorem stripList_eq_self (l : List Char) (h : ∀ c ∈ l, wsp c = false) :
    stripList l = l := by
  unfold stripList
  rw [dropWhile_eq_self_of_all wsp l h,
      dropWhile_eq_self_of_all wsp l.reverse (by intro c hc; exact h c (List.mem_reverse.1 hc)),
      List.reverse_reverse]

theorem _clean_clean (s : String) : _clean (_clean s) = _clean s :=
  congrArg String.mk (stripList_idem s.data)

theorem _norm_clean (s : String) : _norm (_clean s) = _norm s :=
  congrArg pyLower (_clean_clean s)

theorem currentKeyOf_eq_rowKey (r : MasterRow) : currentKeyOf r = rowKey r := by
  unfold currentKeyOf rowKey
  rw [_norm_clean, _norm_clean, _norm_clean]

theorem rowKey_cleanRow (r : MasterRow) : rowKey (cleanRow r) = rowKey r :=
  currentKeyOf_eq_rowKey r

/-! ### Helper lemmas about decimal formatting and identifier parsing -/

theorem digitChar_not_ws (d : Nat) : wsp (digitChar d) = false := by
  unfold digitChar
  split <;> decide

theorem digitChar_digit (d : Nat) : (digitChar d).isDigit = true := by
  unfold digitChar
  split <;> decide

theorem digitChar_toNat (d : Nat) (h : d < 10) : (digitChar d).toNat - 48 = d := by
  interval_cases d <;> decide

theorem natDigitsAux_congr : ∀ n f1 f2, n ≤ f1 → n ≤ f2 →
    natDigitsAux f1 n = natDigitsAux f2 n := by
  intro n
  induction n using Nat.strong_induction_on with
  | _ n ih =>
      intro f1 f2 h1 h2
      match f1, f2 with
      | 0, 0 => rfl
      | 0, f2 + 1 =>
          have hn : n = 0 := by omega
          subst hn
          show [digitChar 0] = if 0 < 10 then [digitChar 0]
            else natDigitsAux f2 (0 / 10) ++ [digitChar (0 % 10)]
          rw [if_pos (by omega)]
      | f1 + 1, 0 =>
          have hn : n = 0 := by omega
          subst hn
          show (if 0 < 10 then [digitChar 0]
            else natDigitsAux f1 (0 / 10) ++ [digitChar (0 % 10)]) = [digitChar 0]
          rw [if_pos (by omega)]
      | f1 + 1, f2 + 1 =>
          show (if n < 10 then [digitChar n]
              else natDigitsAux f1 (n / 10) ++ [digitChar (n % 10)]) =
            (if n < 10 then [digitChar n]
              else natDigitsAux f2 (n / 10) ++ [digitChar (n % 10)])
          by_cases h : n < 10
          · rw [if_pos h, if_pos h]
          · rw [if_neg h, if_neg h,
                ih (n / 10) (Nat.div_lt_self (by omega) (by omega)) f1 f2
                  (by omega) (by omega)]

theorem natDigits_eq (n : Nat) :
    natDigits n = if n < 10 then [digitChar n]
      else natDigits (n / 10) ++ [digitChar (n % 10)] := by
  unfold natDigits
  match n with
  | 0 =>
      show [digitChar 0] = _
      rw [if_pos (by omega)]
  | n + 1 =>
      show (if n + 1 < 10 then [digitChar (n + 1)]
        else natDigitsAux n ((n + 1) / 10) ++ [digitChar ((n + 1) % 10)]) = _
      by_cases h : n + 1 < 10
      · rw [if_pos h, if_pos h]
      · rw [if_neg h, if_neg h,
            natDigitsAux_congr ((n + 1) / 10) n ((n + 1) / 10) (by omega) (by omega)]

theorem natDigits_ne_nil (n : Nat) : natDigits n ≠ [] := by
  rw [natDigits_eq]
  split <;> simp

theorem natDigits_all_not_ws (n : Nat) : ∀ c ∈ natDigits n, wsp c = false := by
  induction n using Nat.strong_induction_on with
  | _ n ih =>
      intro c hc
      rw [natDigits_eq] at hc
      by_cases h : n < 10
      · rw [if_pos h, List.mem_singleton] at hc
        subst hc
        exact digitChar_not_ws n
      · rw [if_neg h] at hc
        rcases List.mem_append.1 hc with h1 | h2
        · exact ih (n / 10) (Nat.div_lt_self (by omega) (by omega)) c h1
        · rw [List.mem_singleton] at h2
          subst h2
          exact digitChar_not_ws _

theorem natDigits_all_digit (n : Nat) : ∀ c ∈ natDigits n, c.isDigit = true := by
  induction n using Nat.strong_induction_on with
  | _ n ih =>
      intro c hc
      rw [natDigits_eq] at hc
      by_cases h : n < 10
      · rw [if_pos h, List.mem_singleton] at hc
        subst hc
        exact digitChar_digit n
      · rw [if_neg h] at hc
        rcases List.mem_append.1 hc with h1 | h2
        · exact ih (n / 10) (Nat.div_lt_self (by omega) (by omega)) c h1
        · rw [List.mem_singleton] at h2
          subst h2
          exact digitChar_digit _

theorem digitsToNatL_append_singleton (l : List Char) (c : Char) :
    digitsToNatL (l ++ [c]) = 10 * digitsToNatL l + (c.toNat - 48) := by
  unfold digitsToNatL
  rw [List.foldl_append]
  simp [Nat.mul_comm]

theorem digitsToNatL_natDigits (n : Nat) : digitsToNatL (natDigits n) = n := by
  induction n using Nat.strong_induction_on with
  | _ n ih =>
      rw [natDigits_eq]
      by_cases h : n < 10
      · rw [if_pos h]
        show 0 * 10 + ((digitChar n).toNat - 48) = n
        rw [Nat.zero_mul, Nat.zero_add]
        exact digitChar_toNat n h
      · rw [if_neg h, digitsToNatL_append_singleton,
            ih (n / 10) (Nat.div_lt_self (by omega) (by omega)),
            digitChar_toNat (n % 10) (Nat.mod_lt _ (by omega))]
        omega

theorem digitsToNatL_replicate_zero (k : Nat) (l : List Char) :
    digitsToNatL (List.replicate k '0' ++ l) = digitsToNatL l := by
  induction k with
  | zero => simp
  | succ k ih =>
      rw [List.replicate_succ, List.cons_append]
      show List.foldl _ (0 * 10 + ('0'.toNat - 48)) _ = _
      have h0 : 0 * 10 + ('0'.toNat - 48) = 0 := by decide
      rw [h0]
      exact ih

theorem parseVenId_venueIdString (n : Nat) : parseVenId (venueIdString n) = some n := by
  unfold parseVenId venueIdString
  have h4 : ("ven_".data).length = 4 := by decide
  have htake : (("ven_".data ++ List.replicate (6 - (natDigits n).length) '0' ++ natDigits n).take 4)
      = "ven_".data := by
    rw [List.append_assoc, ← h4, List.take_left]
  have hdrop : (("ven_".data ++ List.replicate (6 - (natDigits n).length) '0' ++ natDigits n).drop 4)
      = List.replicate (6 - (natDigits n).length) '0' ++ natDigits n := by
    rw [List.append_assoc, ← h4, List.drop_left]
  show (if _ then _ else _) = _
  rw [if_pos]
  · rw [hdrop, digitsToNatL_replicate_zero, digitsToNatL_natDigits]
  · refine ⟨htake, ?_, ?_⟩
    · rw [hdrop]
      intro hnil
      exact natDigits_ne_nil n (List.append_eq_nil.1 hnil).2
    · rw [hdrop, List.all_append, Bool.and_eq_true]
      refine ⟨?_, ?_⟩
      · rw [List.all_eq_true]
        intro c hc
        rw [List.eq_of_mem_replicate hc]
        decide
      · rw [List.all_eq_true]
        intro c hc
        exact natDigits_all_digit n c hc

theorem clean_venueIdString (n : Nat) : _clean (venueIdString n) = venueIdString n := by
  unfold _clean pyStrip venueIdString
  refine congrArg String.mk (stripList_eq_self _ ?_)
  intro c hc
  rcases List.mem_append.1 hc with h1 | h2
  · rcases List.mem_append.1 h1 with h3 | h4
    · have hv : ∀ x ∈ "ven_".data, wsp x = false := by decide
      exact hv c h3
    · rw [List.eq_of_mem_replicate h4]
      decide
  · exact natDigits_all_not_ws n c h2

/-! ### Branch analysis of the row loop -/

theorem rowStep_of_mem (c : List Triple) (r : MasterRow)
    (h : currentKeyOf r ∈ curatedKeys c) :
    rowStep c r = (cleanRow r, currentKeyOf r, false, false) := by
  unfold rowStep
  rw [if_pos h]

theorem rowStep_of_single (c : List Triple) (r : MasterRow) (t : Triple)
    (h : currentKeyOf r ∉ curatedKeys c)
    (hc : candidatesFor c (_norm (_clean r.canonical_venue)) = [t]) :
    rowStep c r = (⟨_clean r.venue_id, t.venue, t.city, t.country⟩, t.key,
      decide ((_norm (_clean r.canonical_city), _norm (_clean r.canonical_country)) ≠
              (_norm t.city, _norm t.country)), false) := by
  unfold rowStep
  rw [if_neg h]
  show (match candidatesFor c (_norm (_clean r.canonical_venue)) with
        | [target] => _
        | cs => _) = _
  rw [hc]

theorem rowStep_of_other (c : List Triple) (r : MasterRow)
    (h : currentKeyOf r ∉ curatedKeys c)
    (hc : (candidatesFor c (_norm (_clean r.canonical_venue))).length ≠ 1) :
    rowStep c r = (cleanRow r, currentKeyOf r, false,
      decide (1 < (candidatesFor c (_norm (_clean r.canonical_venue))).length)) := by
  unfold rowStep
  rw [if_neg h]
  cases hcand : candidatesFor c (_norm (_clean r.canonical_venue)) with
  | nil => rfl
  | cons a tl =>
      cases tl with
      | nil => rw [hcand] at hc; simp at hc
      | cons b tl2 => rfl

theorem seenKeyOf_eq_rowKey_syncRow (c : List Triple) (r : MasterRow) :
    seenKeyOf c r = rowKey (syncRow c r) := by
  unfold seenKeyOf syncRow
  by_cases h : currentKeyOf r ∈ curatedKeys c
  · rw [rowStep_of_mem c r h]
    rfl
  · by_cases h1 : (candidatesFor c (_norm (_clean r.canonical_venue))).length = 1
    · obtain ⟨t, ht⟩ : ∃ t, candidatesFor c (_norm (_clean r.canonical_venue)) = [t] := by
        cases hcand : candidatesFor c (_norm (_clean r.canonical_venue)) with
        | nil => rw [hcand] at h1; simp at h1
        | cons a tl =>
            cases tl with
            | nil => exact ⟨a, rfl⟩
            | cons b tl2 => rw [hcand] at h1; simp at h1
      rw [rowStep_of_single c r t h ht]
      rfl
    · rw [rowStep_of_other c r h h1]
      rfl

theorem candidatesFor_mem (c : List Triple) (vk : String) (t : Triple)
    (h : t ∈ candidatesFor c vk) : t ∈ c ∧ _norm t.venue = vk := by
  unfold candidatesFor at h
  have := List.mem_filter.1 h
  exact ⟨this.1, by have := this.2; rwa [beq_iff_eq] at this⟩

theorem exists_single_of_length_one (c : List Triple) (vk : String)
    (h : (candidatesFor c vk).length = 1) :
    ∃ t, candidatesFor c vk = [t] := by
  cases hcand : candidatesFor c vk with
  | nil => rw [hcand] at h; simp at h
  | cons a tl =>
      cases tl with
      | nil => exact ⟨a, rfl⟩
      | cons b tl2 => rw [hcand] at h; simp at h

/-! ### Closed form of the row loop and of sync_master -/

theorem syncLoopAux_eq (c : List Triple) (rows : List MasterRow)
    (acc : List MasterRow) (seen : List Key) (u a : Nat) :
    syncLoopAux c rows acc seen u a =
      (acc ++ rows.map (syncRow c),
       seen ++ seenKeys c rows,
       u + rows.countP (updFlag c),
       a + rows.countP (ambFlag c)) := by
  induction rows generalizing acc seen u a with
  | nil => simp [syncLoopAux, seenKeys]
  | cons row rest ih =>
      show syncLoopAux c rest (acc ++ [(rowStep c row).1]) (seen ++ [(rowStep c row).2.1])
          (u + (if (rowStep c row).2.2.1 then 1 else 0))
          (a + (if (rowStep c row).2.2.2 then 1 else 0)) = _
      rw [ih]
      refine Prod.ext ?_ (Prod.ext ?_ (Prod.ext ?_ ?_)) <;>
        simp [seenKeys, List.countP_cons, syncRow, seenKeyOf, updFlag, ambFlag] <;> omega

theorem sync_master_eq (m : List MasterRow) (c : List Triple) :
    sync_master m c =
      (m.map (syncRow c) ++
         appendRows (_extract_max_venue_id (m.map (syncRow c))) (missingTriples m c),
       ⟨m.countP (updFlag c), (missingTriples m c).length, m.countP (ambFlag c)⟩) := by
  unfold sync_master missingTriples
  rw [syncLoopAux_eq]
  simp

theorem length_appendRows (k : Nat) (ts : List Triple) :
    (appendRows k ts).length = ts.length := by
  induction ts generalizing k with
  | nil => rfl
  | cons t ts ih => simp [appendRows, ih]

theorem map_rowKey_appendRows (k : Nat) (ts : List Triple) :
    (appendRows k ts).map rowKey = ts.map Triple.key := by
  induction ts generalizing k with
  | nil => rfl
  | cons t ts ih => simp [appendRows, ih]; rfl

theorem mem_appendRows (k : Nat) (ts : List Triple) (r : MasterRow)
    (h : r ∈ appendRows k ts) :
    ∃ j t, t ∈ ts ∧ r = ⟨venueIdString j, t.venue, t.city, t.country⟩ := by
  induction ts generalizing k with
  | nil => simp [appendRows] at h
  | cons t ts ih =>
      rw [appendRows, List.mem_cons] at h
      rcases h with h | h
      · exact ⟨k + 1, t, List.mem_cons_self t ts, h⟩
      · obtain ⟨j, t2, ht2, hr⟩ := ih (k + 1) h
        exact ⟨j, t2, List.mem_cons_of_mem t ht2, hr⟩

/-! ### Facts about the rows produced by the loop -/

theorem syncRow_venue_id (c : List Triple) (r : MasterRow) :
    (syncRow c r).venue_id = _clean r.venue_id := by
  unfold syncRow
  by_cases h : currentKeyOf r ∈ curatedKeys c
  · rw [rowStep_of_mem c r h]
    rfl
  · by_cases h1 : (candidatesFor c (_norm (_clean r.canonical_venue))).length = 1
    · obtain ⟨t, ht⟩ := exists_single_of_length_one _ _ h1
      rw [rowStep_of_single c r t h ht]
    · rw [rowStep_of_other c r h h1]
      rfl

theorem foldl_congr_step {β γ : Type} (g1 g2 : γ → β → γ) (l : List β)
    (h : ∀ x b, b ∈ l → g1 x b = g2 x b) :
    ∀ init, l.foldl g1 init = l.foldl g2 init := by
  induction l with
  | nil => intro init; rfl
  | cons b rest ih =>
      intro init
      rw [List.foldl_cons, List.foldl_cons, h init b (List.mem_cons_self b rest)]
      exact ih (fun x b2 hb => h x b2 (List.mem_cons_of_mem b hb)) _

theorem extract_map_syncRow (c : List Triple) (m : List MasterRow) :
    _extract_max_venue_id (m.map (syncRow c)) = _extract_max_venue_id m := by
  unfold _extract_max_venue_id
  rw [List.foldl_map]
  refine foldl_congr_step _ _ m (fun x r _ => ?_) 0
  rw [syncRow_venue_id, _clean_clean]

theorem seenKeyOf_of_key_mem (c : List Triple) (r : MasterRow)
    (h : rowKey r ∈ curatedKeys c) : seenKeyOf c r = rowKey r := by
  unfold seenKeyOf
  rw [rowStep_of_mem c r (by rwa [currentKeyOf_eq_rowKey]), currentKeyOf_eq_rowKey]

theorem updFlag_of_key_mem (c : List Triple) (r : MasterRow)
    (h : rowKey r ∈ curatedKeys c) : updFlag c r = false := by
  unfold updFlag
  rw [rowStep_of_mem c r (by rwa [currentKeyOf_eq_rowKey])]

theorem candidatesFor_cleanRow (c : List Triple) (r : MasterRow) :
    candidatesFor c (_norm (_clean ((cleanRow r).canonical_venue))) =
      candidatesFor c (_norm (_clean r.canonical_venue)) := by
  show candidatesFor c (_norm (_clean (_clean r.canonical_venue))) = _
  rw [_clean_clean]

theorem updFlag_syncRow (c : List Triple) (r : MasterRow) :
    updFlag c (syncRow c r) = false := by
  by_cases h : currentKeyOf r ∈ curatedKeys c
  · have hs : syncRow c r = cleanRow r := by unfold syncRow; rw [rowStep_of_mem c r h]
    rw [hs]
    refine updFlag_of_key_mem c _ ?_
    rw [rowKey_cleanRow]
    rwa [currentKeyOf_eq_rowKey] at h
  · by_cases h1 : (candidatesFor c (_norm (_clean r.canonical_venue))).length = 1
    · obtain ⟨t, ht⟩ := exists_single_of_length_one _ _ h1
      have hs : syncRow c r = ⟨_clean r.venue_id, t.venue, t.city, t.country⟩ := by
        unfold syncRow; rw [rowStep_of_single c r t h ht]
      rw [hs]
      refine updFlag_of_key_mem c _ ?_
      have htc : t ∈ c := (candidatesFor_mem c _ t (by rw [ht]; exact List.mem_singleton.2 rfl)).1
      exact List.mem_map_of_mem Triple.key htc
    · have hs : syncRow c r = cleanRow r := by unfold syncRow; rw [rowStep_of_other c r h h1]
      rw [hs]
      unfold updFlag
      have hk : currentKeyOf (cleanRow r) ∉ curatedKeys c := by
        rw [currentKeyOf_eq_rowKey, rowKey_cleanRow, ← currentKeyOf_eq_rowKey]
        exact h
      have h2 : (candidatesFor c (_norm (_clean ((cleanRow r).canonical_venue)))).length ≠ 1 := by
        rw [candidatesFor_cleanRow]
        exact h1
      rw [rowStep_of_other c (cleanRow r) hk h2]

theorem rowKey_appendRow (j : Nat) (t : Triple) :
    rowKey ⟨venueIdString j, t.venue, t.city, t.country⟩ = t.key := rfl

theorem missingTriples_mem (m : List MasterRow) (c : List Triple) (t : Triple)
    (h : t ∈ missingTriples m c) : t ∈ c ∧ t.key ∉ seenKeys c m := by
  unfold missingTriples at h
  have h2 := List.mem_filter.1 h
  refine ⟨(List.mem_insertionSort _).1 h2.1, ?_⟩
  have := h2.2
  rwa [decide_eq_true_eq] at this

theorem seenKeys_eq_map (c : List Triple) (m : List MasterRow) :
    seenKeys c m = m.map (fun r => rowKey (syncRow c r)) := by
  unfold seenKeys
  exact List.map_congr_left (fun r _ => seenKeyOf_eq_rowKey_syncRow c r)

theorem exists_outrow_key (m : List MasterRow) (c : List Triple) (t : Triple)
    (ht : t ∈ c) :
    ∃ r1 ∈ (sync_master m c).1, rowKey r1 = t.key := by
  rw [sync_master_eq]
  by_cases hseen : t.key ∈ seenKeys c m
  · rw [seenKeys_eq_map] at hseen
    obtain ⟨r, hr, hkey⟩ := List.mem_map.1 hseen
    exact ⟨syncRow c r,
      List.mem_append_left _ (List.mem_map_of_mem (syncRow c) hr), hkey⟩
  · have hmiss : t ∈ missingTriples m c := by
      unfold missingTriples
      exact List.mem_filter.2 ⟨(List.mem_insertionSort _).2 ht, by
        rw [decide_eq_true_eq]; exact hseen⟩
    have hk : t.key ∈ (appendRows (_extract_max_venue_id (m.map (syncRow c)))
        (missingTriples m c)).map rowKey := by
      rw [map_rowKey_appendRows]
      exact List.mem_map_of_mem Triple.key hmiss
    obtain ⟨r1, hr1, hkey⟩ := List.mem_map.1 hk
    exact ⟨r1, List.mem_append_right _ hr1, hkey⟩

theorem key_mem_seenKeys_out (m : List MasterRow) (c : List Triple) (t : Triple)
    (ht : t ∈ c) : t.key ∈ seenKeys c (sync_master m c).1 := by
  obtain ⟨r1, hr1, hkey⟩ := exists_outrow_key m c t ht
  have hs : seenKeyOf c r1 = t.key := by
    rw [seenKeyOf_of_key_mem c r1 (by rw [hkey]; exact List.mem_map_of_mem Triple.key ht)]
    exact hkey
  unfold seenKeys
  rw [← hs]
  exact List.mem_map_of_mem (seenKeyOf c) hr1

theorem missingTriples_out_nil (m : List MasterRow) (c : List Triple) :
    missingTriples (sync_master m c).1 c = [] := by
  unfold missingTriples
  rw [List.filter_eq_nil]
  intro t htmem
  rw [decide_eq_true_eq]
  intro hnot
  exact hnot (key_mem_seenKeys_out m c t ((List.mem_insertionSort _).1 htmem))

theorem updFlag_out (m : List MasterRow) (c : List Triple) (r1 : MasterRow)
    (h : r1 ∈ (sync_master m c).1) : updFlag c r1 = false := by
  rw [sync_master_eq] at h
  rcases List.mem_append.1 h with h1 | h2
  · obtain ⟨r, _, hr⟩ := List.mem_map.1 h1
    rw [← hr]
    exact updFlag_syncRow c r
  · obtain ⟨j, t, htmem, hr⟩ := mem_appendRows _ _ _ h2
    subst hr
    refine updFlag_of_key_mem c _ ?_
    rw [rowKey_appendRow]
    exact List.mem_map_of_mem Triple.key (missingTriples_mem m c t htmem).1

/-! ### The reconciler is insensitive to the order of the curated set -/

theorem rowStep_congr (c1 c2 : List Triple) (r : MasterRow) (hp : c1.Perm c2) :
    rowStep c1 r = rowStep c2 r := by
  have hkmem : (currentKeyOf r ∈ curatedKeys c1) ↔ (currentKeyOf r ∈ curatedKeys c2) :=
    (hp.map Triple.key).mem_iff
  have hcand : (candidatesFor c1 (_norm (_clean r.canonical_venue))).Perm
      (candidatesFor c2 (_norm (_clean r.canonical_venue))) := hp.filter _
  by_cases h : currentKeyOf r ∈ curatedKeys c1
  · rw [rowStep_of_mem c1 r h, rowStep_of_mem c2 r (hkmem.1 h)]
  · have h2 : currentKeyOf r ∉ curatedKeys c2 := fun hx => h (hkmem.2 hx)
    by_cases h1 : (candidatesFor c1 (_norm (_clean r.canonical_venue))).length = 1
    · obtain ⟨t, ht⟩ := exists_single_of_length_one _ _ h1
      have hperm : (candidatesFor c2 (_norm (_clean r.canonical_venue))).Perm [t] := by
        rw [← ht]; exact hcand.symm
      have ht2 := List.perm_singleton.1 hperm
      rw [rowStep_of_single c1 r t h ht, rowStep_of_single c2 r t h2 ht2]
    · have h1b : (candidatesFor c2 (_norm (_clean r.canonical_venue))).length ≠ 1 := by
        rw [← hcand.length_eq]; exact h1
      rw [rowStep_of_other c1 r h h1, rowStep_of_other c2 r h2 h1b, hcand.length_eq]

theorem sortedCurated_congr (c1 c2 : List Triple) (hp : c1.Perm c2) :
    List.insertionSort tripleLe c1 = List.insertionSort tripleLe c2 :=
  List.eq_of_perm_of_sorted
    ((List.perm_insertionSort _ c1).trans (hp.trans (List.perm_insertionSort _ c2).symm))
    (List.sorted_insertionSort _ c1) (List.sorted_insertionSort _ c2)

theorem sync_master_congr (m : List MasterRow) (c1 c2 : List Triple) (hp : c1.Perm c2) :
    sync_master m c1 = sync_master m c2 := by
  have hrow : ∀ r, rowStep c1 r = rowStep c2 r := fun r => rowStep_congr c1 c2 r hp
  have hsyncf : syncRow c1 = syncRow c2 := funext fun r => by unfold syncRow; rw [hrow r]
  have hseenf : seenKeyOf c1 = seenKeyOf c2 := funext fun r => by unfold seenKeyOf; rw [hrow r]
  have hupdf : updFlag c1 = updFlag c2 := funext fun r => by unfold updFlag; rw [hrow r]
  have hambf : ambFlag c1 = ambFlag c2 := funext fun r => by unfold ambFlag; rw [hrow r]
  have hmiss : missingTriples m c1 = missingTriples m c2 := by
    unfold missingTriples seenKeys
    rw [sortedCurated_congr c1 c2 hp, hseenf]
  rw [sync_master_eq, sync_master_eq, hsyncf, hupdf, hambf, hmiss]

/-! ### Uniqueness of output keys -/

theorem rowKey_syncRow_fst (c : List Triple) (r : MasterRow) :
    (rowKey (syncRow c r)).1 = _norm r.canonical_venue := by
  unfold syncRow
  by_cases h : currentKeyOf r ∈ curatedKeys c
  · rw [rowStep_of_mem c r h]
    show (rowKey (cleanRow r)).1 = _norm r.canonical_venue
    rw [rowKey_cleanRow]
    rfl
  · by_cases h1 : (candidatesFor c (_norm (_clean r.canonical_venue))).length = 1
    · obtain ⟨t, ht⟩ := exists_single_of_length_one _ _ h1
      rw [rowStep_of_single c r t h ht]
      show _norm t.venue = _norm r.canonical_venue
      have hmem := candidatesFor_mem c _ t (by rw [ht]; exact List.mem_singleton.2 rfl)
      rw [hmem.2, _norm_clean]
    · rw [rowStep_of_other c r h h1]
      show (rowKey (cleanRow r)).1 = _norm r.canonical_venue
      rw [rowKey_cleanRow]
      rfl

theorem length_filter_le_one_of_nodup_map {α β : Type} [DecidableEq β]
    (f : α → β) (l : List α) (k : β) (h : (l.map f).Nodup) :
    (l.filter (fun x => decide (f x = k))).length ≤ 1 := by
  induction l with
  | nil => simp
  | cons a tl ih =>
      rw [List.map_cons, List.nodup_cons] at h
      by_cases hk : f a = k
      · rw [List.filter_cons_of_pos (by simp [hk])]
        have hnil : tl.filter (fun x => decide (f x = k)) = [] := by
          rw [List.filter_eq_nil]
          intro x hx
          simp only [decide_eq_true_eq]
          intro hfx
          refine h.1 ?_
          rw [show f a = f x from hk.trans hfx.symm]
          exact List.mem_map_of_mem f hx
        rw [hnil]
        simp
      · rw [List.filter_cons_of_neg (by simp [hk])]
        exact ih h.2

theorem nodup_out_keys (m : List MasterRow) (c : List Triple)
    (hv : (m.map (fun r => _norm r.canonical_venue)).Nodup)
    (hk : (c.map Triple.key).Nodup) :
    ((sync_master m c).1.map rowKey).Nodup := by
  rw [sync_master_eq]
  show ((m.map (syncRow c) ++ _).map rowKey).Nodup
  rw [List.map_append, List.map_map, map_rowKey_appendRows, List.nodup_append]
  refine ⟨?_, ?_, ?_⟩
  · have hmap : (m.map (rowKey ∘ syncRow c)).map Prod.fst =
        m.map (fun r => _norm r.canonical_venue) := by
      rw [List.map_map]
      exact List.map_congr_left (fun r _ => rowKey_syncRow_fst c r)
    have h1 := hv
    rw [← hmap] at h1
    exact h1.of_map
  · have hsub : List.Sublist ((missingTriples m c).map Triple.key)
        ((List.insertionSort tripleLe c).map Triple.key) := by
      refine List.Sublist.map Triple.key ?_
      unfold missingTriples
      exact List.filter_sublist _
    have hnod : ((List.insertionSort tripleLe c).map Triple.key).Nodup := by
      refine (List.Perm.nodup_iff ?_).2 hk
      exact (List.perm_insertionSort tripleLe c).map Triple.key
    exact hnod.sublist hsub
  · intro x hx1 hx2
    obtain ⟨t, htmem, hkey⟩ := List.mem_map.1 hx2
    have hseen : x ∈ seenKeys c m := by
      rw [seenKeys_eq_map]
      simpa [Function.comp] using hx1
    rw [← hkey] at hseen
    exact (missingTriples_mem m c t htmem).2 hseen

/-! ### Positional structure of the output row list -/

theorem appendRows_getElem (k : Nat) (ts : List Triple) (i : Nat) (hi : i < ts.length)
    (hi2 : i < (appendRows k ts).length) :
    (appendRows k ts)[i] =
      ⟨venueIdString (k + i + 1), ts[i].venue, ts[i].city, ts[i].country⟩ := by
  induction ts generalizing k i with
  | nil => simp at hi
  | cons t tl ih =>
      cases i with
      | zero => rfl
      | succ j =>
          have hj : j < tl.length := by simpa using hi
          have hj2 : j < (appendRows (k + 1) tl).length := by
            rw [length_appendRows]; exact hj
          show (appendRows (k + 1) tl)[j] = _
          rw [ih (k + 1) j hj hj2]
          have harith : k + 1 + j + 1 = k + (j + 1) + 1 := by omega
          rw [harith]
          simp only [List.getElem_cons_succ]

theorem out_length (m : List MasterRow) (c : List Triple) :
    (sync_master m c).1.length = m.length + (missingTriples m c).length := by
  rw [sync_master_eq]
  show (m.map (syncRow c) ++ _).length = _
  rw [List.length_append, List.length_map, length_appendRows]

theorem out_drop (m : List MasterRow) (c : List Triple) :
    (sync_master m c).1.drop m.length =
      appendRows (_extract_max_venue_id m) (missingTriples m c) := by
  rw [sync_master_eq, extract_map_syncRow]
  show (m.map (syncRow c) ++ _).drop m.length = _
  rw [show m.length = (m.map (syncRow c)).length by rw [List.length_map],
      List.drop_left]

theorem out_getElem_of_lt (m : List MasterRow) (c : List Triple) (i : Nat)
    (hi : i < m.length) :
    (sync_master m c).1[i]? = some (syncRow c (m.get ⟨i, hi⟩)) := by
  rw [sync_master_eq]
  show (m.map (syncRow c) ++ _)[i]? = _
  rw [List.getElem?_append, if_pos (by rw [List.length_map]; exact hi)]
  rw [List.getElem?_map]
  rw [List.getElem?_eq_getElem hi]
  rfl

theorem out_getElem_appended (m : List MasterRow) (c : List Triple) (i : Nat)
    (hi : i < (missingTriples m c).length) :
    ((sync_master m c).1.drop m.length)[i]? =
      some ⟨venueIdString (_extract_max_venue_id m + i + 1),
        ((missingTriples m c).get ⟨i, hi⟩).venue,
        ((missingTriples m c).get ⟨i, hi⟩).city,
        ((missingTriples m c).get ⟨i, hi⟩).country⟩ := by
  rw [out_drop]
  have hi2 : i < (appendRows (_extract_max_venue_id m) (missingTriples m c)).length := by
    rw [length_appendRows]; exact hi
  rw [List.getElem?_eq_getElem hi2, appendRows_getElem _ _ i hi hi2]
  rfl

/-! ### Characterisation of the curated-triple loader -/

theorem mem_addTriple (s : List Triple) (t x : Triple) :
    x ∈ addTriple s t ↔ x ∈ s ∨ x = t := by
  unfold addTriple
  by_cases h : t ∈ s
  · rw [if_pos h]
    constructor
    · exact Or.inl
    · rintro (h1 | rfl)
      · exact h1
      · exact h
  · rw [if_neg h, List.mem_append, List.mem_singleton]

theorem addTriple_nodup (s : List Triple) (t : Triple) (h : s.Nodup) :
    (addTriple s t).Nodup := by
  unfold addTriple
  by_cases hm : t ∈ s
  · rw [if_pos hm]; exact h
  · rw [if_neg hm, List.nodup_append]
    refine ⟨h, List.nodup_singleton t, ?_⟩
    intro x hx hxt
    rw [List.mem_singleton] at hxt
    subst hxt
    exact hm hx

theorem mem_primaryStep (s : List Triple) (row : SrcRow) (x : Triple) :
    x ∈ primaryStep s row ↔ x ∈ s ∨ primaryMakes row x := by
  show x ∈ (if cleanOpt (row.lookup "venue") ≠ "" ∧ cleanOpt (row.lookup "city") ≠ "" ∧
      cleanOpt (row.lookup "country") ≠ "" then
      addTriple s ⟨cleanOpt (row.lookup "venue"), cleanOpt (row.lookup "city"),
        cleanOpt (row.lookup "country")⟩ else s) ↔ _
  unfold primaryMakes
  by_cases h : cleanOpt (row.lookup "venue") ≠ "" ∧ cleanOpt (row.lookup "city") ≠ "" ∧
      cleanOpt (row.lookup "country") ≠ ""
  · rw [if_pos h, mem_addTriple]
    constructor
    · rintro (h1 | rfl)
      · exact Or.inl h1
      · exact Or.inr ⟨h.1, h.2.1, h.2.2, rfl⟩
    · rintro (h1 | ⟨_, _, _, rfl⟩)
      · exact Or.inl h1
      · exact Or.inr rfl
  · rw [if_neg h]
    constructor
    · exact Or.inl
    · rintro (h1 | ⟨h2, h3, h4, _⟩)
      · exact h1
      · exact absurd ⟨h2, h3, h4⟩ h

theorem mem_aliasStep (s : List Triple) (row : SrcRow) (x : Triple) :
    x ∈ aliasStep s row ↔ x ∈ s ∨ aliasMakes row x := by
  show x ∈ (if _approved_alias_row ((row.lookup "review_status").getD "") then
      (if cleanOpt (row.lookup "canonical_venue") ≠ "" ∧
          cleanOpt (row.lookup "canonical_city") ≠ "" ∧
          cleanOpt (row.lookup "canonical_country") ≠ "" then
        addTriple s ⟨cleanOpt (row.lookup "canonical_venue"),
          cleanOpt (row.lookup "canonical_city"),
          cleanOpt (row.lookup "canonical_country")⟩ else s) else s) ↔ _
  unfold aliasMakes
  by_cases ha : _approved_alias_row ((row.lookup "review_status").getD "") = true
  · rw [if_pos ha]
    by_cases h : cleanOpt (row.lookup "canonical_venue") ≠ "" ∧
        cleanOpt (row.lookup "canonical_city") ≠ "" ∧
        cleanOpt (row.lookup "canonical_country") ≠ ""
    · rw [if_pos h, mem_addTriple]
      constructor
      · rintro (h1 | rfl)
        · exact Or.inl h1
        · exact Or.inr ⟨ha, h.1, h.2.1, h.2.2, rfl⟩
      · rintro (h1 | ⟨_, _, _, _, rfl⟩)
        · exact Or.inl h1
        · exact Or.inr rfl
    · rw [if_neg h]
      constructor
      · exact Or.inl
      · rintro (h1 | ⟨_, h2, h3, h4, _⟩)
        · exact h1
        · exact absurd ⟨h2, h3, h4⟩ h
  · rw [if_neg ha]
    constructor
    · exact Or.inl
    · rintro (h1 | ⟨h2, _⟩)
      · exact h1
      · exact absurd h2 ha

theorem mem_foldl_primary (rows : List SrcRow) (s : List Triple) (x : Triple) :
    x ∈ rows.foldl primaryStep s ↔ x ∈ s ∨ ∃ row ∈ rows, primaryMakes row x := by
  induction rows generalizing s with
  | nil => simp
  | cons row rest ih =>
      rw [List.foldl_cons, ih, mem_primaryStep]
      constructor
      · rintro ((h1 | h2) | ⟨row2, hr, hm⟩)
        · exact Or.inl h1
        · exact Or.inr ⟨row, List.mem_cons_self row rest, h2⟩
        · exact Or.inr ⟨row2, List.mem_cons_of_mem row hr, hm⟩
      · rintro (h1 | ⟨row2, hr, hm⟩)
        · exact Or.inl (Or.inl h1)
        · rcases List.mem_cons.1 hr with rfl | hr2
          · exact Or.inl (Or.inr hm)
          · exact Or.inr ⟨row2, hr2, hm⟩

theorem mem_foldl_alias (rows : List SrcRow) (s : List Triple) (x : Triple) :
    x ∈ rows.foldl aliasStep s ↔ x ∈ s ∨ ∃ row ∈ rows, aliasMakes row x := by
  induction rows generalizing s with
  | nil => simp
  | cons row rest ih =>
      rw [List.foldl_cons, ih, mem_aliasStep]
      constructor
      · rintro ((h1 | h2) | ⟨row2, hr, hm⟩)
        · exact Or.inl h1
        · exact Or.inr ⟨row, List.mem_cons_self row rest, h2⟩
        · exact Or.inr ⟨row2, List.mem_cons_of_mem row hr, hm⟩
      · rintro (h1 | ⟨row2, hr, hm⟩)
        · exact Or.inl (Or.inl h1)
        · rcases List.mem_cons.1 hr with rfl | hr2
          · exact Or.inl (Or.inr hm)
          · exact Or.inr ⟨row2, hr2, hm⟩

theorem load_mem (c a : List SrcRow) (x : Triple) :
    x ∈ _load_curated_triples c a ↔
      (∃ row ∈ c, primaryMakes row x) ∨ (∃ row ∈ a, aliasMakes row x) := by
  unfold _load_curated_triples
  rw [mem_foldl_alias, mem_foldl_primary]
  simp

theorem primaryStep_nodup (s : List Triple) (row : SrcRow) (h : s.Nodup) :
    (primaryStep s row).Nodup := by
  unfold primaryStep
  dsimp only
  split
  · exact addTriple_nodup _ _ h
  · exact h

theorem aliasStep_nodup (s : List Triple) (row : SrcRow) (h : s.Nodup) :
    (aliasStep s row).Nodup := by
  unfold aliasStep
  dsimp only
  split
  · split
    · exact addTriple_nodup _ _ h
    · exact h
  · exact h

theorem foldl_primary_nodup (rows : List SrcRow) (s : List Triple) (h : s.Nodup) :
    (rows.foldl primaryStep s).Nodup := by
  induction rows generalizing s with
  | nil => exact h
  | cons row rest ih => exact ih _ (primaryStep_nodup s row h)

theorem foldl_alias_nodup (rows : List SrcRow) (s : List Triple) (h : s.Nodup) :
    (rows.foldl aliasStep s).Nodup := by
  induction rows generalizing s with
  | nil => exact h
  | cons row rest ih => exact ih _ (aliasStep_nodup s row h)

theorem load_nodup (c a : List SrcRow) : (_load_curated_triples c a).Nodup :=
  foldl_alias_nodup a _ (foldl_primary_nodup c [] List.nodup_nil)

theorem clean_cleanOpt (v : Option String) : _clean (cleanOpt v) = cleanOpt v :=
  _clean_clean _

theorem load_trimmed (c a : List SrcRow) (x : Triple)
    (h : x ∈ _load_curated_triples c a) :
    _clean x.venue = x.venue ∧ _clean x.city = x.city ∧ _clean x.country = x.country := by
  rcases (load_mem c a x).1 h with ⟨row, _, hm⟩ | ⟨row, _, hm⟩
  · obtain ⟨_, _, _, rfl⟩ := hm
    exact ⟨clean_cleanOpt _, clean_cleanOpt _, clean_cleanOpt _⟩
  · obtain ⟨_, _, _, _, rfl⟩ := hm
    exact ⟨clean_cleanOpt _, clean_cleanOpt _, clean_cleanOpt _⟩

/-! ### Rows with many candidates, trimmed outputs, missing columns -/

theorem syncRow_of_many (c : List Triple) (r : MasterRow)
    (h2 : 2 ≤ (candidatesFor c (_norm (_clean r.canonical_venue))).length) :
    syncRow c r = cleanRow r := by
  unfold syncRow
  by_cases h : currentKeyOf r ∈ curatedKeys c
  · rw [rowStep_of_mem c r h]
  · rw [rowStep_of_other c r h (by omega)]

theorem syncRow_trimmed (c : List Triple)
    (hc : ∀ t ∈ c, _clean t.venue = t.venue ∧ _clean t.city = t.city ∧
      _clean t.country = t.country) (r : MasterRow) :
    _clean (syncRow c r).venue_id = (syncRow c r).venue_id ∧
    _clean (syncRow c r).canonical_venue = (syncRow c r).canonical_venue ∧
    _clean (syncRow c r).canonical_city = (syncRow c r).canonical_city ∧
    _clean (syncRow c r).canonical_country = (syncRow c r).canonical_country := by
  unfold syncRow
  by_cases h : currentKeyOf r ∈ curatedKeys c
  · rw [rowStep_of_mem c r h]
    exact ⟨_clean_clean _, _clean_clean _, _clean_clean _, _clean_clean _⟩
  · by_cases h1 : (candidatesFor c (_norm (_clean r.canonical_venue))).length = 1
    · obtain ⟨t, ht⟩ := exists_single_of_length_one _ _ h1
      rw [rowStep_of_single c r t h ht]
      have htc := hc t (candidatesFor_mem c _ t (by rw [ht]; exact List.mem_singleton.2 rfl)).1
      exact ⟨_clean_clean _, htc.1, htc.2.1, htc.2.2⟩
    · rw [rowStep_of_other c r h h1]
      exact ⟨_clean_clean _, _clean_clean _, _clean_clean _, _clean_clean _⟩

theorem out_trimmed (m : List MasterRow) (c : List Triple)
    (hc : ∀ t ∈ c, _clean t.venue = t.venue ∧ _clean t.city = t.city ∧
      _clean t.country = t.country)
    (r1 : MasterRow) (h : r1 ∈ (sync_master m c).1) :
    _clean r1.venue_id = r1.venue_id ∧
    _clean r1.canonical_venue = r1.canonical_venue ∧
    _clean r1.canonical_city = r1.canonical_city ∧
    _clean r1.canonical_country = r1.canonical_country := by
  rw [sync_master_eq] at h
  rcases List.mem_append.1 h with h1 | h2
  · obtain ⟨r, _, rfl⟩ := List.mem_map.1 h1
    exact syncRow_trimmed c hc r
  · obtain ⟨j, t, htmem, rfl⟩ := mem_appendRows _ _ _ h2
    have ht := hc t (missingTriples_mem m c t htmem).1
    exact ⟨clean_venueIdString j, ht.1, ht.2.1, ht.2.2⟩

theorem primaryStep_none_col (s : List Triple) (row : SrcRow) (k : String)
    (hk : k = "venue" ∨ k = "city" ∨ k = "country")
    (h : row.lookup k = none) : primaryStep s row = s := by
  unfold primaryStep
  dsimp only
  rw [if_neg]
  intro hcon
  rcases hk with rfl | rfl | rfl
  · exact hcon.1 (by rw [h]; rfl)
  · exact hcon.2.1 (by rw [h]; rfl)
  · exact hcon.2.2 (by rw [h]; rfl)

theorem aliasStep_none_col (s : List Triple) (row : SrcRow) (k : String)
    (hk : k = "canonical_venue" ∨ k = "canonical_city" ∨ k = "canonical_country" ∨
      k = "review_status")
    (h : row.lookup k = none) : aliasStep s row = s := by
  unfold aliasStep
  dsimp only
  rcases hk with rfl | rfl | rfl | rfl
  · by_cases ha : _approved_alias_row ((row.lookup "review_status").getD "") = true
    · rw [if_pos ha, if_neg]
      intro hcon
      exact hcon.1 (by rw [h]; rfl)
    · rw [if_neg ha]
  · by_cases ha : _approved_alias_row ((row.lookup "review_status").getD "") = true
    · rw [if_pos ha, if_neg]
      intro hcon
      exact hcon.2.1 (by rw [h]; rfl)
    · rw [if_neg ha]
  · by_cases ha : _approved_alias_row ((row.lookup "review_status").getD "") = true
    · rw [if_pos ha, if_neg]
      intro hcon
      exact hcon.2.2 (by rw [h]; rfl)
    · rw [if_neg ha]
  · have hval : (row.lookup "review_status").getD "" = "" := by rw [h]; rfl
    rw [if_neg (by rw [hval]; decide)]

theorem foldl_primary_none_col (c : List SrcRow) (s : List Triple) (k : String)
    (hk : k = "venue" ∨ k = "city" ∨ k = "country")
    (h : ∀ row ∈ c, row.lookup k = none) :
    c.foldl primaryStep s = s := by
  induction c generalizing s with
  | nil => rfl
  | cons row rest ih =>
      rw [List.foldl_cons,
          primaryStep_none_col s row k hk (h row (List.mem_cons_self row rest))]
      exact ih s (fun row2 hr => h row2 (List.mem_cons_of_mem row hr))

theorem foldl_alias_none_col (a : List SrcRow) (s : List Triple) (k : String)
    (hk : k = "canonical_venue" ∨ k = "canonical_city" ∨ k = "canonical_country" ∨
      k = "review_status")
    (h : ∀ row ∈ a, row.lookup k = none) :
    a.foldl aliasStep s = s := by
  induction a generalizing s with
  | nil => rfl
  | cons row rest ih =>
      rw [List.foldl_cons,
          aliasStep_none_col s row k hk (h row (List.mem_cons_self row rest))]
      exact ih s (fun row2 hr => h row2 (List.mem_cons_of_mem row hr))

/-! ### Claim C1 -/

/-- C1 counterexample: on the registry row (ven_000010, County Ground, Bristol,
England) with the two County Ground candidates, the claim expects
ambiguous_skipped = 1, but the row matches the Bristol candidate by full key,
so the exact-key rule keeps it and ambiguous_rows is 0, not 1. -/
theorem C1_counterexample :
    ¬ ((sync_master [⟨"ven_000010", "County Ground", "Bristol", "England"⟩]
        [⟨"County Ground", "Bristol", "England"⟩,
         ⟨"County Ground", "Taunton", "England"⟩]).2.ambiguous_rows = 1) := by
  decide

/-- C1 amended: on that input the reconciler keeps the row unchanged under the
exact-key rule with ambiguous_skipped = 0, updated_in_place = 0, and appends
the unseen Taunton candidate as a new row ven_000011 (appended_new = 1). -/
theorem C1_amended :
    sync_master [⟨"ven_000010", "County Ground", "Bristol", "England"⟩]
        [⟨"County Ground", "Bristol", "England"⟩,
         ⟨"County Ground", "Taunton", "England"⟩] =
      ([⟨"ven_000010", "County Ground", "Bristol", "England"⟩,
        ⟨"ven_000011", "County Ground", "Taunton", "England"⟩],
       ⟨0, 1, 0⟩) := by
  decide

/-! ### Claim C2 -/

/-- C2 counterexample: two loader rows equal up to casing produce two distinct
Triples in the curated set, so the set does not contain exactly one Triple
with that normalised key; deduplication is by exact surface equality. -/
theorem C2_counterexample :
    ¬ (((_load_curated_triples
        [[("venue", "Lords"), ("city", "London"), ("country", "England")],
         [("venue", "LORDS"), ("city", "London"), ("country", "England")]] []).filter
        (fun t => decide (t.key = Triple.key ⟨"Lords", "London", "England"⟩))).length = 1) := by
  decide

/-- C2 amended: the curated set produced by the loader is duplicate-free under
exact surface equality of cleaned Triples, and contains exactly the cleaned
Triples of valid rows; rows whose normalised keys agree but whose cleaned
surface forms differ each contribute their own Triple. -/
theorem C2_amended (c a : List SrcRow) :
    (_load_curated_triples c a).Nodup ∧
    ∀ t, t ∈ _load_curated_triples c a ↔
      (∃ row ∈ c, primaryMakes row t) ∨ (∃ row ∈ a, aliasMakes row t) :=
  ⟨load_nodup c a, fun t => load_mem c a t⟩

/-! ### Claim C3 -/

/-- C3 counterexample: a primary source missing the venue column does not
abort loading; the alias source still contributes its approved triple and
reconciliation proceeds, appending one row. -/
theorem C3_counterexample :
    _load_curated_triples [[("city", "Kolkata"), ("country", "India")]]
        [[("canonical_venue", "Eden Gardens"), ("canonical_city", "Kolkata"),
          ("canonical_country", "India"), ("review_status", "approved")]] =
      [⟨"Eden Gardens", "Kolkata", "India"⟩] ∧
    (sync_master []
        (_load_curated_triples [[("city", "Kolkata"), ("country", "India")]]
          [[("canonical_venue", "Eden Gardens"), ("canonical_city", "Kolkata"),
            ("canonical_country", "India"), ("review_status", "approved")]])).2.appended_rows = 1 := by
  decide

/-- C3 amended: the loader performs no schema validation and never fails.
For any of the required columns of either source (venue, city, country for
the primary mapping; canonical_venue, canonical_city, canonical_country,
review_status for the alias mapping), a source whose rows all lack that
column contributes nothing, and loading behaves exactly as if that source
were empty. -/
theorem C3_amended (c a : List SrcRow) :
    (∀ k ∈ (["venue", "city", "country"] : List String),
      (∀ row ∈ c, (row.lookup k : Option String) = none) →
      _load_curated_triples c a = _load_curated_triples [] a) ∧
    (∀ k ∈ (["canonical_venue", "canonical_city", "canonical_country",
        "review_status"] : List String),
      (∀ row ∈ a, (row.lookup k : Option String) = none) →
      _load_curated_triples c a = _load_curated_triples c []) := by
  constructor
  · intro k hk h
    have hk2 : k = "venue" ∨ k = "city" ∨ k = "country" := by simpa using hk
    unfold _load_curated_triples
    rw [foldl_primary_none_col c [] k hk2 h]
    rfl
  · intro k hk h
    have hk2 : k = "canonical_venue" ∨ k = "canonical_city" ∨
        k = "canonical_country" ∨ k = "review_status" := by simpa using hk
    unfold _load_curated_triples
    rw [foldl_alias_none_col a _ k hk2 h]
    rfl

/-- C3 witness: the amended statement instantiated twice, on a one-row
primary source missing the venue column and on a one-row alias source
missing the review_status column. -/
theorem C3_witness :
    (_load_curated_triples [[("city", "Kolkata"), ("country", "India")]]
        [[("canonical_venue", "Eden Gardens"), ("canonical_city", "Kolkata"),
          ("canonical_country", "India"), ("review_status", "approved")]] =
      _load_curated_triples []
        [[("canonical_venue", "Eden Gardens"), ("canonical_city", "Kolkata"),
          ("canonical_country", "India"), ("review_status", "approved")]]) ∧
    (_load_curated_triples
        [[("venue", "Eden Gardens"), ("city", "Kolkata"), ("country", "India")]]
        [[("canonical_venue", "County Ground"), ("canonical_city", "Bristol"),
          ("canonical_country", "England")]] =
      _load_curated_triples
        [[("venue", "Eden Gardens"), ("city", "Kolkata"), ("country", "India")]] []) :=
  ⟨(C3_amended [[("city", "Kolkata"), ("country", "India")]]
      [[("canonical_venue", "Eden Gardens"), ("canonical_city", "Kolkata"),
        ("canonical_country", "India"), ("review_status", "approved")]]).1
      "venue" (by decide) (by decide),
   (C3_amended [[("venue", "Eden Gardens"), ("city", "Kolkata"), ("country", "India")]]
      [[("canonical_venue", "County Ground"), ("canonical_city", "Bristol"),
        ("canonical_country", "England")]]).2
      "review_status" (by decide) (by decide)⟩

/-! ### Claim C4 -/

/-- C4 counterexample: two registry rows sharing a venue name collapse onto
the same curated triple, so the output contains two rows with the key of a
curated Triple; at-most-one fails without further hypotheses. -/
theorem C4_counterexample :
    (⟨"A", "B", "C"⟩ : Triple) ∈ ([⟨"A", "B", "C"⟩] : List Triple) ∧
    ¬ (((sync_master [⟨"ven_000001", "A", "B", "C"⟩, ⟨"ven_000002", "A", "X", "Y"⟩]
        [⟨"A", "B", "C"⟩]).1.filter
        (fun r => decide (rowKey r = Triple.key ⟨"A", "B", "C"⟩))).length ≤ 1) := by
  decide

/-- C4 amended: if the registry rows have pairwise distinct normalised venue
names and the curated Triples have pairwise distinct normalised keys, then
for every curated Triple the output registry contains at most one row whose
normalised key equals that Triple's key. -/
theorem C4_amended (m : List MasterRow) (c : List Triple)
    (hv : (m.map (fun r => _norm r.canonical_venue)).Nodup)
    (hk : (c.map Triple.key).Nodup)
    (t : Triple) (ht : t ∈ c) :
    ((sync_master m c).1.filter (fun r => decide (rowKey r = t.key))).length ≤ 1 :=
  length_filter_le_one_of_nodup_map rowKey _ t.key (nodup_out_keys m c hv hk)

/-- C4 witness: the amended statement instantiated on a registry with one row
and a curated set with two key-distinct triples. -/
theorem C4_witness :
    (([⟨"ven_000001", "County Ground", "Bristol", "England"⟩] : List MasterRow).map
        (fun r => _norm r.canonical_venue)).Nodup ∧
    (([⟨"County Ground", "Bristol", "England"⟩, ⟨"Eden Gardens", "Kolkata", "India"⟩] :
        List Triple).map Triple.key).Nodup ∧
    (⟨"County Ground", "Bristol", "England"⟩ : Triple) ∈
      ([⟨"County Ground", "Bristol", "England"⟩, ⟨"Eden Gardens", "Kolkata", "India"⟩] :
        List Triple) ∧
    ((sync_master [⟨"ven_000001", "County Ground", "Bristol", "England"⟩]
        [⟨"County Ground", "Bristol", "England"⟩, ⟨"Eden Gardens", "Kolkata", "India"⟩]).1.filter
        (fun r => decide (rowKey r = Triple.key ⟨"County Ground", "Bristol", "England"⟩))).length ≤ 1 :=
  ⟨by decide, by decide, by decide,
   C4_amended _ _ (by decide) (by decide) _ (by decide)⟩

/-! ### Claim C5 -/

/-- C5: reconciling the output of a previous run against the same curated
set is a fixed point: it yields updated_in_place = 0 and appended_new = 0. -/
theorem C5_idempotent (m : List MasterRow) (c : List Triple) :
    (sync_master (sync_master m c).1 c).2.updated_rows = 0 ∧
    (sync_master (sync_master m c).1 c).2.appended_rows = 0 := by
  constructor
  · rw [sync_master_eq ((sync_master m c).1) c]
    show ((sync_master m c).1.countP (updFlag c)) = 0
    rw [List.countP_eq_zero]
    intro r hr
    rw [updFlag_out m c r hr]
    simp
  · rw [sync_master_eq ((sync_master m c).1) c]
    show (missingTriples (sync_master m c).1 c).length = 0
    rw [missingTriples_out_nil]
    rfl

/-! ### Claim C6 -/

/-- C6 counterexample: an ambiguous row stored with whitespace around its
city is emitted trimmed, so its output city is not byte-identical to the
input city. -/
theorem C6_counterexample :
    (sync_master [⟨"ven_000001", "County Ground", " Bristolx ", "England"⟩]
        [⟨"County Ground", "Bristol", "England"⟩,
         ⟨"County Ground", "Taunton", "England"⟩]).2.ambiguous_rows = 1 ∧
    ((sync_master [⟨"ven_000001", "County Ground", " Bristolx ", "England"⟩]
        [⟨"County Ground", "Bristol", "England"⟩,
         ⟨"County Ground", "Taunton", "England"⟩]).1[0]?.map
        MasterRow.canonical_city) = some "Bristolx" ∧
    ("Bristolx" : String) ≠ " Bristolx " := by
  decide

/-- C6 amended: for every existing row whose normalised venue name has two
or more curated candidates, the output row at the same position carries the
whitespace-trimmed city and country of the input row (byte-identical to the
input whenever the input was already trimmed). -/
theorem C6_amended (m : List MasterRow) (c : List Triple) (i : Nat) (hi : i < m.length)
    (hamb : 2 ≤ (candidatesFor c (_norm (_clean (m.get ⟨i, hi⟩).canonical_venue))).length) :
    ((sync_master m c).1[i]?.map MasterRow.canonical_city) =
      some (_clean (m.get ⟨i, hi⟩).canonical_city) ∧
    ((sync_master m c).1[i]?.map MasterRow.canonical_country) =
      some (_clean (m.get ⟨i, hi⟩).canonical_country) := by
  rw [out_getElem_of_lt m c i hi, syncRow_of_many c _ hamb]
  exact ⟨rfl, rfl⟩

/-- C6 witness: the amended statement instantiated on an ambiguous row with
whitespace around its city. -/
theorem C6_witness :
    2 ≤ (candidatesFor
        [⟨"County Ground", "Bristol", "England"⟩, ⟨"County Ground", "Taunton", "England"⟩]
        (_norm (_clean "County Ground"))).length ∧
    ((sync_master [⟨"ven_000001", "County Ground", " Bristolx ", "England"⟩]
        [⟨"County Ground", "Bristol", "England"⟩,
         ⟨"County Ground", "Taunton", "England"⟩]).1[0]?.map
        MasterRow.canonical_city) = some (_clean " Bristolx ") :=
  ⟨by decide,
   (C6_amended [⟨"ven_000001", "County Ground", " Bristolx ", "England"⟩]
      [⟨"County Ground", "Bristol", "England"⟩, ⟨"County Ground", "Taunton", "England"⟩]
      0 (by decide) (by decide)).1⟩

/-! ### Claim C7 -/

/-- C7: every appended row carries the next consecutive identifier above the
numeric high-water mark of the input registry, in the order of the unseen
curated triples sorted by (venue, city, country); in particular every
appended numeric suffix is strictly greater than the pre-run maximum. -/
theorem C7_allocation (m : List MasterRow) (c : List Triple) (i : Nat)
    (hi : i < (missingTriples m c).length) :
    ((sync_master m c).1.drop m.length)[i]? =
      some ⟨venueIdString (_extract_max_venue_id m + i + 1),
        ((missingTriples m c).get ⟨i, hi⟩).venue,
        ((missingTriples m c).get ⟨i, hi⟩).city,
        ((missingTriples m c).get ⟨i, hi⟩).country⟩ ∧
    (((sync_master m c).1.drop m.length)[i]?.map (fun r => parseVenId r.venue_id)) =
      some (some (_extract_max_venue_id m + i + 1)) ∧
    _extract_max_venue_id m < _extract_max_venue_id m + i + 1 := by
  refine ⟨out_getElem_appended m c i hi, ?_, by omega⟩
  rw [out_getElem_appended m c i hi]
  show some (parseVenId (venueIdString _)) = _
  rw [parseVenId_venueIdString]

/-- C7 witness: on the County Ground scenario the single appended row gets
identifier ven_000011, one above the pre-run maximum 10. -/
theorem C7_witness :
    0 < (missingTriples [⟨"ven_000010", "County Ground", "Bristol", "England"⟩]
        [⟨"County Ground", "Bristol", "England"⟩,
         ⟨"County Ground", "Taunton", "England"⟩]).length ∧
    (((sync_master [⟨"ven_000010", "County Ground", "Bristol", "England"⟩]
        [⟨"County Ground", "Bristol", "England"⟩,
         ⟨"County Ground", "Taunton", "England"⟩]).1.drop 1)[0]?.map
        (fun r => parseVenId r.venue_id)) = some (some 11) :=
  ⟨by decide, by
    have h := (C7_allocation [⟨"ven_000010", "County Ground", "Bristol", "England"⟩]
        [⟨"County Ground", "Bristol", "England"⟩,
         ⟨"County Ground", "Taunton", "England"⟩] 0 (by decide)).2.1
    exact h⟩

/-! ### Claim C8 -/

/-- C8 counterexample: in the exactly-one-candidate case the venue-name
field is replaced by the candidate surface form and the venue_id is trimmed,
so neither is unchanged from the input row. -/
theorem C8_counterexample :
    (sync_master [⟨" ven_000005 ", "EDEN GARDENS", "Kolkata", "India"⟩]
        [⟨"Eden Gardens", "Kolkata", "Bharat"⟩]).1[0]? =
      some ⟨"ven_000005", "Eden Gardens", "Kolkata", "Bharat"⟩ ∧
    ("Eden Gardens" : String) ≠ "EDEN GARDENS" ∧
    ("ven_000005" : String) ≠ " ven_000005 " := by
  decide

/-- C8 amended: in the exactly-one-candidate case the output row is exactly
the trimmed input venue_id together with the candidate surface venue, city
and country; the candidate venue is normalised-equal to the input venue. -/
theorem C8_amended (m : List MasterRow) (c : List Triple) (i : Nat) (hi : i < m.length)
    (t : Triple)
    (hk : currentKeyOf (m.get ⟨i, hi⟩) ∉ curatedKeys c)
    (hc : candidatesFor c (_norm (_clean (m.get ⟨i, hi⟩).canonical_venue)) = [t]) :
    (sync_master m c).1[i]? =
      some ⟨_clean (m.get ⟨i, hi⟩).venue_id, t.venue, t.city, t.country⟩ ∧
    _norm t.venue = _norm (m.get ⟨i, hi⟩).canonical_venue := by
  constructor
  · rw [out_getElem_of_lt m c i hi]
    have hs : syncRow c (m.get ⟨i, hi⟩) =
        ⟨_clean (m.get ⟨i, hi⟩).venue_id, t.venue, t.city, t.country⟩ := by
      unfold syncRow
      rw [rowStep_of_single c _ t hk hc]
    rw [hs]
  · have hmem := candidatesFor_mem c _ t (by rw [hc]; exact List.mem_singleton.2 rfl)
    rw [hmem.2, _norm_clean]

/-- C8 witness: the amended statement instantiated on the Eden Gardens row
with an upper-case venue and whitespace around the identifier. -/
theorem C8_witness :
    currentKeyOf ⟨" ven_000005 ", "EDEN GARDENS", "Kolkata", "India"⟩ ∉
      curatedKeys [⟨"Eden Gardens", "Kolkata", "Bharat"⟩] ∧
    candidatesFor [⟨"Eden Gardens", "Kolkata", "Bharat"⟩]
      (_norm (_clean "EDEN GARDENS")) = [⟨"Eden Gardens", "Kolkata", "Bharat"⟩] ∧
    (sync_master [⟨" ven_000005 ", "EDEN GARDENS", "Kolkata", "India"⟩]
        [⟨"Eden Gardens", "Kolkata", "Bharat"⟩]).1[0]? =
      some ⟨_clean " ven_000005 ", "Eden Gardens", "Kolkata", "Bharat"⟩ :=
  ⟨by decide, by decide,
   (C8_amended [⟨" ven_000005 ", "EDEN GARDENS", "Kolkata", "India"⟩]
      [⟨"Eden Gardens", "Kolkata", "Bharat"⟩] 0 (by decide)
      ⟨"Eden Gardens", "Kolkata", "Bharat"⟩ (by decide) (by decide)).1⟩

/-! ### Claim C9 -/

/-- C9: every field of every row emitted by the reconciler on a curated set
produced by the loader equals its own whitespace-trimmed form, including
rows kept unchanged in the zero-candidate and ambiguous cases, so rows
stored with surrounding whitespace are emitted trimmed. -/
theorem C9_trimmed (cr ar : List SrcRow) (m : List MasterRow) (r1 : MasterRow)
    (h : r1 ∈ (sync_master m (_load_curated_triples cr ar)).1) :
    _clean r1.venue_id = r1.venue_id ∧
    _clean r1.canonical_venue = r1.canonical_venue ∧
    _clean r1.canonical_city = r1.canonical_city ∧
    _clean r1.canonical_country = r1.canonical_country :=
  out_trimmed m _ (fun t ht => load_trimmed cr ar t ht) r1 h

/-- C9 witness: a registry row stored with whitespace in every field is
emitted trimmed. -/
theorem C9_witness :
    (⟨"ven_000001", "A", "B", "C"⟩ : MasterRow) ∈
      (sync_master [⟨" ven_000001 ", " A ", " B ", " C "⟩]
        (_load_curated_triples
          [[("venue", "Eden Gardens"), ("city", "Kolkata"), ("country", "India")]] [])).1 ∧
    (_clean "ven_000001" = "ven_000001" ∧ _clean "A" = "A" ∧ _clean "B" = "B" ∧
      _clean "C" = "C") :=
  ⟨by decide,
   C9_trimmed [[("venue", "Eden Gardens"), ("city", "Kolkata"), ("country", "India")]] []
     [⟨" ven_000001 ", " A ", " B ", " C "⟩] ⟨"ven_000001", "A", "B", "C"⟩ (by decide)⟩

/-! ### Claim C10 -/

/-- C10: the reconciler is deterministic in the curated set: two curated
lists that are permutations of each other, hence equal as sets, produce
identical output row lists and identical counts. -/
theorem C10_deterministic (m : List MasterRow) (c1 c2 : List Triple)
    (hp : c1.Perm c2) :
    sync_master m c1 = sync_master m c2 :=
  sync_master_congr m c1 c2 hp

/-- C10 witness: the two County Ground candidates listed in either order
give identical results. -/
theorem C10_witness :
    ([⟨"County Ground", "Bristol", "England"⟩, ⟨"County Ground", "Taunton", "England"⟩] :
        List Triple).Perm
      [⟨"County Ground", "Taunton", "England"⟩, ⟨"County Ground", "Bristol", "England"⟩] ∧
    sync_master [⟨"ven_000010", "County Ground", "Bristol", "England"⟩]
        [⟨"County Ground", "Bristol", "England"⟩, ⟨"County Ground", "Taunton", "England"⟩] =
      sync_master [⟨"ven_000010", "County Ground", "Bristol", "England"⟩]
        [⟨"County Ground", "Taunton", "England"⟩, ⟨"County Ground", "Bristol", "England"⟩] :=
  ⟨by decide, C10_deterministic _ _ _ (by decide)⟩
